import Mathlib

/-!
Verification of the superlist offline synchronization engine
(`src/offline_manager.js`, V7 revision — the latest `OfflineManager` in the
repository — together with the V6/V4 revisions kept in the same tree).

The JavaScript code is shallowly embedded:
* Dexie tables become Lean lists kept in ascending primary-key order
  (`++id` auto-increment keys: `orderBy('id').toArray()` returns exactly this
  order; the embedding re-sorts explicitly where the source does).
* Documents are records with an optional `_id` (any JSON value, since the code
  checks `typeof record._id === 'string'`), an optional string `name`, and a
  list of further domain fields.  Domain field names are assumed not to clash
  with the reserved Dexie keys `id` and `collection`.
* The remote gateway (`datagateway.js` is not part of the repository; the spec
  treats it as an external collaborator) is an oracle
  `Gateway : String → Option Payload → Except Unit (Option String)`;
  `.error` models a thrown/rejected call, `.ok (some rid)` models a response
  object whose `_id` field is the truthy string `rid`, `.ok none` a response
  without a usable `_id`.
* JavaScript truthiness, `JSON.parse(JSON.stringify(·))` (which turns `Blob`
  values into empty objects) and the `Blob → base64` conversion of
  `syncOutbox` are modelled explicitly.
* JS `Set` membership (SameValueZero) is modelled as structural equality;
  this coincides with the JS behaviour on the primitive values (strings,
  numbers, `undefined`) these sets hold in every reachable state.
-/

namespace Superlist

/-- A flat JSON-ish value as stored in document fields.  `blob` is a binary
attachment (a `File`/`Blob` with the given content), `b64` its base64 data-URL
encoding, `emptyObj` the empty object `{}` that `JSON.stringify` makes of a
`Blob`.  Nested objects never matter to the operations modelled here (they
never descend into domain fields); deep structure is treated separately in the
heap model below. -/
inductive JVal where
  | str (s : String)
  | num (n : Int)
  | bool (b : Bool)
  | null
  | blob (content : String)
  | b64 (content : String)
  | emptyObj
deriving DecidableEq, Repr

/-- JavaScript truthiness of a `JVal`. -/
def truthy : JVal → Bool
  | .str s => s != ""
  | .num n => n != 0
  | .bool b => b
  | .null => false
  | .blob _ => true
  | .b64 s => s != ""
  | .emptyObj => true

/-- A document payload as passed to `saveSmartDocument` and as stored in an
outbox intent: the `_id` field (if present), the `name` field (if present; the
natural key used by `_linkServerId`), and the remaining domain fields. -/
structure Payload where
  _id : Option JVal
  name : Option String
  fields : List (String × JVal)
deriving DecidableEq, Repr

/-- `JSON.parse(JSON.stringify(v))` on one value: a `Blob` has no enumerable
own properties, so it serializes to `{}`; all other (flat) values survive. -/
def jsonCloneVal : JVal → JVal
  | .blob _ => .emptyObj
  | v => v

/-- `const record = JSON.parse(JSON.stringify(data))` — the deep snapshot
taken at the top of `saveSmartDocument` (offline_manager.js line 202). -/
def jsonClone (p : Payload) : Payload :=
  { _id := p._id.map jsonCloneVal
    name := p.name
    fields := p.fields.map (fun kv => (kv.1, jsonCloneVal kv.2)) }

/-- `record._id && typeof record._id === 'string' && record._id.length > 5`
(offline_manager.js line 205). -/
def hasServerId (p : Payload) : Bool :=
  match p._id with
  | some (.str s) => (s != "") && decide (5 < s.length)
  | _ => false

/-- `!doc._id` / `!i.payload._id`: the `_id` field is absent or falsy. -/
def idFalsy : Option JVal → Bool
  | none => true
  | some v => !truthy v

/-- A row of the Dexie `data` table: `++id` primary key, `collection` tag and
the document content `{...record}`. -/
structure DataRec where
  id : Nat
  collection : String
  _id : Option JVal
  name : Option String
  fields : List (String × JVal)
deriving DecidableEq, Repr

/-- A row of the Dexie `outbox` table.  V7 `clearSmartCollection` stores
neither `payload` nor `timestamp`, hence both are optional. -/
structure OutboxItem where
  id : Nat
  action : String
  collection : String
  payload : Option Payload
  timestamp : Option Nat
deriving DecidableEq, Repr

/-- The local Dexie database `AppCache_<app>_<client>`: the two tables plus
their `++id` auto-increment counters.  Both lists are maintained in ascending
`id` order (Dexie primary-key order). -/
structure DB where
  dataNext : Nat
  data : List DataRec
  outboxNext : Nat
  outbox : List OutboxItem
deriving DecidableEq, Repr

/-- `db.data.add({...record, collection})`: insert with a fresh primary key. -/
def addData (c : String) (q : Payload) (db : DB) : DB :=
  { db with
    data := db.data ++ [⟨db.dataNext, c, q._id, q.name, q.fields⟩]
    dataNext := db.dataNext + 1 }

/-- Key-wise merge of `{...record}` into an existing row's fields
(`Table.update` semantics: keys present in the change object overwrite, other
keys of the row survive). -/
def mergeFields (old updNew : List (String × JVal)) : List (String × JVal) :=
  old.map (fun kv =>
      match updNew.lookup kv.1 with
      | some v => (kv.1, v)
      | none => kv) ++
    updNew.filter (fun kv => (old.lookup kv.1).isNone)

/-- `db.data.update(existing.id, { ...record, collection })`. -/
def mergeRecord (row : DataRec) (q : Payload) : DataRec :=
  { row with
    _id := match q._id with | some v => some v | none => row._id
    name := match q.name with | some s => some s | none => row.name
    fields := mergeFields row.fields q.fields }

/-- `db.data.update(key, changes)` applied via a row transformer. -/
def updateData (key : Nat) (f : DataRec → DataRec) (db : DB) : DB :=
  { db with data := db.data.map (fun d => if d.id == key then f d else d) }

/-- `db.outbox.add({action, collection, payload: record, timestamp: Date.now()})`. -/
def enqueue (action c : String) (q : Payload) (now : Nat) (db : DB) : DB :=
  { db with
    outbox := db.outbox ++ [⟨db.outboxNext, action, c, some q, some now⟩]
    outboxNext := db.outboxNext + 1 }

/-- `saveSmartDocument(collectionName, data)` (offline_manager.js 199-237),
local effect.  When `navigator.onLine` the source additionally fires an
un-awaited `syncOutbox()`; that separate invocation is modelled by
`syncOutbox` below.  `now` is `Date.now()`. -/
def saveSmartDocument (c : String) (data : Payload) (now : Nat) (db : DB) :
    DB × Payload :=
  let record := jsonClone data
  let db1 :=
    if hasServerId record then
      match db.data.find? (fun d => d.collection == c && d._id == record._id) with
      | some existing => updateData existing.id (fun row => mergeRecord row record) db
      | none => addData c record db
    else
      addData c record db
  (enqueue (if hasServerId record then "PUT" else "POST") c record now db1, record)

/-- A character stripped by JavaScript `String.prototype.trim` (restricted to
the common whitespace characters; the names compared here never contain the
exotic ones). -/
def jsWhitespace (ch : Char) : Bool :=
  ch == ' ' || ch == '\t' || ch == '\n' || ch == '\r'

/-- JavaScript `s.trim()`. -/
def jsTrim (s : String) : String :=
  ⟨((s.data.dropWhile jsWhitespace).reverse.dropWhile jsWhitespace).reverse⟩

/-- `doc.name?.trim() === originalPayload.name?.trim()` — optional chaining:
two absent names compare equal (`undefined === undefined`). -/
def trimEq (a b : Option String) : Bool :=
  (a.map jsTrim) == (b.map jsTrim)

/-- The record `_linkServerId` looks for (offline_manager.js 278-281):
the first row of the collection, in primary-key order, that has a falsy `_id`
and whose trimmed name matches the original payload's trimmed name. -/
def findLinkTarget (c : String) (orig : Payload) (db : DB) : Option DataRec :=
  (db.data.filter (fun d => d.collection == c)).find?
    (fun d => idFalsy d._id && trimEq d.name orig.name)

/-- `_linkServerId(collectionName, originalPayload, newServerId)`
(offline_manager.js 277-286): `update(localRecord.id, { _id: newServerId })`
touches only the `_id` field of the found row. -/
def linkServerId (c : String) (orig : Payload) (newServerId : String) (db : DB) : DB :=
  match findLinkTarget c orig db with
  | some localRecord =>
      updateData localRecord.id (fun row => { row with _id := some (.str newServerId) }) db
  | none => db

/-- One call the engine makes on the `DataGateway`. -/
inductive GwCall where
  | saveDocument (collection : String) (payload : Option Payload)
  | deleteDocument (collection : String) (docId : Option JVal)
  | clearCollection (collection : String)
deriving DecidableEq, Repr

/-- The binary conversion of the `syncOutbox` loop
(`finalPayload[key] = await this._blobToBase64(finalPayload[key])`). -/
def convertBlobsVal : JVal → JVal
  | .blob content => .b64 content
  | v => v

/-- The `for (const key in finalPayload)` pass over a payload's own
enumerable fields. -/
def convertBlobs (p : Payload) : Payload :=
  { _id := p._id.map convertBlobsVal
    name := p.name
    fields := p.fields.map (fun kv => (kv.1, convertBlobsVal kv.2)) }

/-- What V7 `syncOutbox` hands to `gateway.saveDocument` for one intent:
`item.payload` after blob conversion (`undefined` for a payload-less intent —
`for..in` over `undefined` iterates zero times and does not throw). -/
def sentPayload (item : OutboxItem) : Option Payload :=
  item.payload.map convertBlobs

/-- The single gateway call V7 `syncOutbox` performs for one intent
(offline_manager.js 261): always `saveDocument`, whatever the action. -/
def itemCall (item : OutboxItem) : GwCall :=
  .saveDocument item.collection (sentPayload item)

/-- The external gateway as an oracle: `.error` models a thrown call,
`.ok (some rid)` a response whose `_id` is the truthy string `rid`,
`.ok none` a response without a usable `_id`. -/
abbrev Gateway := String → Option Payload → Except Unit (Option String)

/-- `db.outbox.delete(item.id)`. -/
def removeOutbox (key : Nat) (db : DB) : DB :=
  { db with outbox := db.outbox.filter (fun i => !(i.id == key)) }

/-- Database effect of the V7 `syncOutbox` loop body for one intent
(offline_manager.js 248-274), after its single gateway call `itemCall item`:
on success link the server id when the intent was a `POST` and the response
carries an `_id` (passing the blob-converted payload, which the in-place
conversion mutated), then delete the intent; a `POST` response with an `_id`
but an absent payload makes `_linkServerId` throw on `originalPayload.name`,
the `catch` keeps the intent; on a thrown gateway call the intent also stays
(`continue`). -/
def processItem (gw : Gateway) (db : DB) (item : OutboxItem) : DB :=
  match gw item.collection (sentPayload item) with
  | .error _ => db
  | .ok none => removeOutbox item.id db
  | .ok (some rid) =>
      if item.action == "POST" then
        match item.payload with
        | some p => removeOutbox item.id (linkServerId item.collection (convertBlobs p) rid db)
        | none => db
      else removeOutbox item.id db

/-- The `for (const item of items)` loop over the snapshot read at the top of
`syncOutbox`: every iteration dispatches exactly one gateway call
(`itemCall item`, always `gateway.saveDocument`) and then applies
`processItem`'s database effect.  Returns the final database and the trace of
gateway calls in dispatch order. -/
def runItems (gw : Gateway) : DB → List OutboxItem → DB × List GwCall
  | db, [] => (db, [])
  | db, item :: rest =>
      let r := runItems gw (processItem gw db item) rest
      (r.1, itemCall item :: r.2)

/-- `db.outbox.orderBy('id').toArray()`. -/
def sortById (l : List OutboxItem) : List OutboxItem :=
  l.insertionSort (fun a b => a.id ≤ b.id)

/-- V7 `syncOutbox` (offline_manager.js 242-275): a no-op when offline,
otherwise process the id-ordered snapshot of the outbox.  Returns the final
database and the trace of gateway calls in dispatch order. -/
def syncOutbox (online : Bool) (gw : Gateway) (db : DB) : DB × List GwCall :=
  if online then runItems gw db (sortById db.outbox) else (db, [])

/-- `new Set(outboxItems.map(i => i.payload._id).filter(id => id))`
(offline_manager.js 308), for the intents of one collection. -/
def pendingIds (c : String) (outbox : List OutboxItem) : List JVal :=
  ((outbox.filter (fun i => i.collection == c)).filterMap
      (fun i => i.payload.bind (fun p => p._id))).filter truthy

/-- `new Set(outboxItems.filter(i => !i.payload._id).map(i => i.payload.name))`
(offline_manager.js 309). -/
def pendingNewNames (c : String) (outbox : List OutboxItem) : List (Option String) :=
  ((outbox.filter (fun i => i.collection == c)).filter
      (fun i => idFalsy (i.payload.bind (fun p => p._id)))).map
    (fun i => i.payload.bind (fun p => p.name))

/-- Negation of the delete filter of `refreshCache` (offline_manager.js
311-316): a row is kept iff it belongs to another collection or is protected
by a pending intent. -/
def keepRec (c : String) (pids : List JVal) (pnames : List (Option String))
    (d : DataRec) : Bool :=
  if d.collection != c then true
  else
    match d._id with
    | none => pnames.contains d.name
    | some v => if truthy v then pids.contains v else pnames.contains d.name

/-- `db.data.bulkPut(taggedData)` with `taggedData = freshData.map(d =>
({...d, collection}))`: server documents carry no local primary key, so each
is inserted under a fresh one. -/
def bulkPutFresh (c : String) (fresh : List Payload) (db : DB) : DB :=
  fresh.foldl (fun acc q => addData c q acc) db

/-- `refreshCache(collectionName)` (offline_manager.js 304-323) given the
result of `gateway.getCollection`.  A failed fetch is caught before any local
write.  If some intent of the collection has no `payload` (a `CLEAR`),
evaluating `i.payload._id` throws a `TypeError` that the `catch` swallows
before the delete runs, so the whole refresh is a no-op. -/
def refreshCache (c : String) (fetched : Except Unit (List Payload)) (db : DB) : DB :=
  match fetched with
  | .error _ => db
  | .ok freshData =>
      if (db.outbox.filter (fun i => i.collection == c)).all (fun i => i.payload.isSome) then
        bulkPutFresh c freshData
          { db with
            data := db.data.filter
              (keepRec c (pendingIds c db.outbox) (pendingNewNames c db.outbox)) }
      else db

/-- `clearSmartCollection(collectionName)` (offline_manager.js 325-329):
optimistic local delete, then a `CLEAR` intent with neither `payload` nor
`timestamp`.  The online `syncOutbox()` trigger is again a separate,
un-awaited invocation. -/
def clearSmartCollection (c : String) (db : DB) : DB :=
  { db with
    data := db.data.filter (fun d => d.collection != c)
    outbox := db.outbox ++ [⟨db.outboxNext, "CLEAR", c, none, none⟩]
    outboxNext := db.outboxNext + 1 }

/-- Whether the V7 `syncOutbox` loop deletes the intent: the gateway call
returned, and the successful-`POST` link step did not throw. -/
def itemOk (gw : Gateway) (item : OutboxItem) : Bool :=
  match gw item.collection (sentPayload item) with
  | .error _ => false
  | .ok none => true
  | .ok (some _) => !(item.action == "POST" && item.payload.isNone)

/-- The call a `GwCall` is a `saveDocument` call. -/
def isSaveCall : GwCall → Bool
  | .saveDocument _ _ => true
  | _ => false

/-- Dispatch selection of the V6 revision's `syncOutbox`
(offline_manager.js 89-106, the previous `OfflineManager` kept in the same
file): `POST`/`PUT` via `saveDocument` (on the deep-cloned, blob-converted
payload), `DELETE` via `deleteDocument`, `CLEAR` via `clearCollection`. -/
def itemCallsV6 (item : OutboxItem) : List GwCall :=
  if item.action == "POST" || item.action == "PUT" then
    [.saveDocument item.collection (item.payload.map (fun p => convertBlobs (jsonClone p)))]
  else if item.action == "DELETE" then
    [.deleteDocument item.collection (item.payload.bind (fun p => p._id))]
  else if item.action == "CLEAR" then
    [.clearCollection item.collection]
  else []

/-!
Interleaving model for concurrent `syncOutbox` invocations.  The engine runs
single-threaded with suspension at every `await`; a drain instance is either
not yet past its initial `toArray` read, iterating over its private snapshot,
or finished.  One step of an instance is one snapshot read or the processing
of one intent of its snapshot (coarser than the real `await` granularity, so
every schedule of this model corresponds to a real interleaving). -/

/-- The continuation state of one `syncOutbox()` invocation. -/
inductive DrainState where
  | notStarted
  | running (rem : List OutboxItem)
  | finished
deriving DecidableEq, Repr

/-- Two interleaved `syncOutbox()` invocations over the shared database,
with the combined gateway-call trace. -/
structure TwoDrains where
  db : DB
  trace : List GwCall
  d1 : DrainState
  d2 : DrainState
deriving DecidableEq, Repr

/-- One step of one drain instance: the initial
`outbox.orderBy('id').toArray()` read (with the `items.length === 0` early
return), or the processing of the next intent of its snapshot. -/
def stepDrain (gw : Gateway) (db : DB) (trace : List GwCall) :
    DrainState → DB × List GwCall × DrainState
  | .notStarted =>
      let items := sortById db.outbox
      if items.isEmpty then (db, trace, .finished) else (db, trace, .running items)
  | .running [] => (db, trace, .finished)
  | .running (item :: rest) =>
      (processItem gw db item, trace ++ [itemCall item], .running rest)
  | .finished => (db, trace, .finished)

/-- Schedule one step of the first (`true`) or second (`false`) drain. -/
def stepSys (gw : Gateway) (s : TwoDrains) (first : Bool) : TwoDrains :=
  if first then
    let r := stepDrain gw s.db s.trace s.d1
    { db := r.1, trace := r.2.1, d1 := r.2.2, d2 := s.d2 }
  else
    let r := stepDrain gw s.db s.trace s.d2
    { db := r.1, trace := r.2.1, d1 := s.d1, d2 := r.2.2 }

/-- Run a schedule (a list of which-drain choices). -/
def runSched (gw : Gateway) (s : TwoDrains) (sched : List Bool) : TwoDrains :=
  sched.foldl (stepSys gw) s

/-!
Heap model for the snapshot invariant of `saveSmartDocument`.  The caller's
`data` argument is a live object graph in a mutable heap;
`JSON.parse(JSON.stringify(data))` reads it into a pure JSON tree and
reallocates that tree as a fresh graph sharing no address with any
pre-existing object.  Later field assignments to pre-existing objects (in
particular anywhere inside the caller's original `data`) therefore cannot
change the value of the snapshot. -/

/-- A JavaScript value: a primitive, or a reference to a heap object. -/
inductive HVal where
  | str (s : String)
  | num (n : Int)
  | bool (b : Bool)
  | null
  | ref (addr : Nat)
deriving DecidableEq, Repr

/-- A pure JSON tree, the result of `JSON.stringify`/input of `JSON.parse`. -/
inductive PVal where
  | str (s : String)
  | num (n : Int)
  | bool (b : Bool)
  | null
  | obj (fields : List (String × PVal))
deriving Repr

/-- The mutable heap: the next fresh address and the allocated objects. -/
structure Heap where
  next : Nat
  objs : List (Nat × List (String × HVal))
deriving Repr

/-- Address lookup. -/
def Heap.lookup (h : Heap) (a : Nat) : Option (List (String × HVal)) :=
  (h.objs.find? (fun e => e.1 == a)).map (fun e => e.2)

/-- Well-formed heap: every allocated address is below `next`. -/
def wfHeap (h : Heap) : Bool :=
  h.objs.all (fun e => decide (e.1 < h.next))

/-- Read a list of object fields through a given value reader. -/
def readFieldsWith (f : HVal → Option PVal) :
    List (String × HVal) → Option (List (String × PVal))
  | [] => some []
  | (k, v) :: rest =>
      match f v, readFieldsWith f rest with
      | some pv, some prest => some ((k, pv) :: prest)
      | _, _ => none

/-- `JSON.stringify`, as a fuelled reader: `none` models the exception on a
cyclic (or fuel-exhausting) graph and on a dangling reference. -/
def readVal : Nat → Heap → HVal → Option PVal
  | 0, _, _ => none
  | _ + 1, _, .str s => some (.str s)
  | _ + 1, _, .num n => some (.num n)
  | _ + 1, _, .bool b => some (.bool b)
  | _ + 1, _, .null => some .null
  | fuel + 1, h, .ref a =>
      match h.lookup a with
      | none => none
      | some flds => (readFieldsWith (readVal fuel h) flds).map PVal.obj

/-- Allocate a list of tree fields through a given value allocator,
threading the heap. -/
def allocFieldsWith (f : Heap → PVal → Heap × HVal) :
    Heap → List (String × PVal) → Heap × List (String × HVal)
  | h, [] => (h, [])
  | h, (k, v) :: rest =>
      let r1 := f h v
      let r2 := allocFieldsWith f r1.1 rest
      (r2.1, (k, r1.2) :: r2.2)

/-- `JSON.parse`: reallocate a pure tree as a fresh object graph.  Every new
object gets a fresh address at the current `next`.  (The fuel argument is only
a recursion bound; `fits` below states its adequacy.) -/
def allocVal : Nat → Heap → PVal → Heap × HVal
  | 0, h, _ => (h, .null)
  | _ + 1, h, .str s => (h, .str s)
  | _ + 1, h, .num n => (h, .num n)
  | _ + 1, h, .bool b => (h, .bool b)
  | _ + 1, h, .null => (h, .null)
  | fuel + 1, h, .obj fs =>
      let r := allocFieldsWith (allocVal fuel) h fs
      (⟨r.1.next + 1, r.1.objs ++ [(r.1.next, r.2)]⟩, .ref r.1.next)

/-- Fuel adequacy for a tree: `fuel` levels suffice to traverse it. -/
def fits : Nat → PVal → Bool
  | 0, _ => false
  | _ + 1, .str _ => true
  | _ + 1, .num _ => true
  | _ + 1, .bool _ => true
  | _ + 1, .null => true
  | fuel + 1, .obj fs => fs.all (fun kv => fits fuel kv.2)

/-- Overwrite (or append) one field of one existing object: a JavaScript
field assignment `obj[k] = v`. -/
def setFieldList (flds : List (String × HVal)) (k : String) (v : HVal) :
    List (String × HVal) :=
  if flds.any (fun kv => kv.1 == k) then
    flds.map (fun kv => if kv.1 == k then (k, v) else kv)
  else flds ++ [(k, v)]

/-- The heap after the field assignment `(object at addr)[k] = v`. -/
def setField (h : Heap) (a : Nat) (k : String) (v : HVal) : Heap :=
  ⟨h.next, h.objs.map (fun e => if e.1 == a then (e.1, setFieldList e.2 k v) else e)⟩

/-- `JSON.parse(JSON.stringify(v))` in the heap model
(offline_manager.js 202): serialize the live graph, reallocate it fresh.
The returned `HVal` is the `record` enqueued as outbox payload. -/
def jsonRoundTrip (fuel : Nat) (h : Heap) (v : HVal) : Option (Heap × HVal) :=
  (readVal fuel h v).map (fun t => allocVal fuel h t)

/-- Specification of `allocVal fuel h t`: the next-address counter grows, the
heap is only extended at fresh addresses, and the allocated value reads back
as `t` in any heap that agrees with the allocation result on the freshly
allocated address range. -/
def AllocValSpec (fuel : Nat) (t : PVal) (h : Heap) : Prop :=
  h.next ≤ (allocVal fuel h t).1.next ∧
  (∃ ext, (allocVal fuel h t).1.objs = h.objs ++ ext ∧
      ∀ e ∈ ext, h.next ≤ e.1 ∧ e.1 < (allocVal fuel h t).1.next) ∧
  (∀ (h2 : Heap) (F : Nat),
      (∀ a, h.next ≤ a → a < (allocVal fuel h t).1.next →
        h2.lookup a = (allocVal fuel h t).1.lookup a) →
      fits F t = true → readVal F h2 (allocVal fuel h t).2 = some t)

/-- The corresponding specification for `allocFieldsWith (allocVal fuel)`. -/
def AllocFieldsSpec (fuel : Nat) (fs : List (String × PVal)) (h : Heap) : Prop :=
  h.next ≤ (allocFieldsWith (allocVal fuel) h fs).1.next ∧
  (∃ ext, (allocFieldsWith (allocVal fuel) h fs).1.objs = h.objs ++ ext ∧
      ∀ e ∈ ext, h.next ≤ e.1 ∧ e.1 < (allocFieldsWith (allocVal fuel) h fs).1.next) ∧
  (∀ (h2 : Heap) (F : Nat),
      (∀ a, h.next ≤ a → a < (allocFieldsWith (allocVal fuel) h fs).1.next →
        h2.lookup a = (allocFieldsWith (allocVal fuel) h fs).1.lookup a) →
      fs.all (fun kv => fits F kv.2) = true →
      readFieldsWith (readVal F h2) (allocFieldsWith (allocVal fuel) h fs).2 = some fs)

/-- The Dexie `++id` invariant of the outbox table: strictly increasing ids,
all below the auto-increment counter.  Every reachable database state
satisfies it (see the preservation lemmas below); it is the hypothesis under
which `orderBy('id')` returns the outbox as stored. -/
def OutboxWF (db : DB) : Prop :=
  List.Pairwise (fun a b => a.id < b.id) db.outbox ∧
    ∀ i ∈ db.outbox, i.id < db.outboxNext

/-!
Concrete fixtures used by the witness theorems below. -/

/-- A fresh, empty local database (Dexie `++id` keys start at 1). -/
def dbEmpty : DB := ⟨1, [], 1, []⟩

/-- The pending-create payload `{name: "Milk"}`. -/
def pMilk : Payload := ⟨none, some "Milk", []⟩

/-- The pending-create payload `{name: "Eggs"}`. -/
def pEggs : Payload := ⟨none, some "Eggs", []⟩

/-- A gateway whose `saveDocument` always succeeds without returning an id. -/
def gwOkNone : Gateway := fun _ _ => Except.ok none

/-- A gateway whose `saveDocument` always returns the server id `abc123`. -/
def gwAbc : Gateway := fun _ _ => Except.ok (some "abc123")

/-- Local pending-create record for `pMilk` (no `_id` yet). -/
def recMilk : DataRec := ⟨1, "lists", none, some "Milk", []⟩

/-- The create intent enqueued for `pMilk`. -/
def itemMilk : OutboxItem := ⟨1, "POST", "lists", some pMilk, some 0⟩

/-- A database holding the pending `Milk` record and its create intent. -/
def dbMilk : DB := ⟨2, [recMilk], 2, [itemMilk]⟩

/-- Local pending-create record for `pEggs`, with a domain field. -/
def recEggs : DataRec := ⟨1, "lists", none, some "Eggs", [("qty", .num 12)]⟩

/-- The create intent enqueued for `pEggs`. -/
def itemEggs : OutboxItem := ⟨1, "POST", "lists", some pEggs, some 0⟩

/-- A database holding the pending `Eggs` record and its create intent. -/
def dbEggs : DB := ⟨2, [recEggs], 2, [itemEggs]⟩

/-- Three queued create intents `A`, `B`, `C` on the same collection. -/
def itemA : OutboxItem := ⟨1, "POST", "lists", some ⟨none, some "A", []⟩, some 0⟩

/-- Second of the three queued intents. -/
def itemB : OutboxItem := ⟨2, "POST", "lists", some ⟨none, some "B", []⟩, some 1⟩

/-- Third of the three queued intents. -/
def itemC : OutboxItem := ⟨3, "POST", "lists", some ⟨none, some "C", []⟩, some 2⟩

/-- A database with the three intents queued. -/
def dbThree : DB := ⟨1, [], 4, [itemA, itemB, itemC]⟩

/-- A gateway that fails (transiently) exactly on intent `B`'s payload. -/
def gwFailB : Gateway := fun _ p =>
  if p == some ⟨none, some "B", []⟩ then Except.error () else Except.ok none

/-- A payload whose `_id` is a string of length 5 — below the
`length > 5` server-identity threshold. -/
def p12345 : Payload := ⟨some (.str "12345"), some "New", []⟩

/-- An existing local record already carrying `_id = "12345"`. -/
def rec12345 : DataRec := ⟨1, "lists", some (.str "12345"), some "Old", []⟩

/-- A database holding `rec12345`. -/
def db12345 : DB := ⟨2, [rec12345], 1, []⟩

/-- A caller heap: the original `data` object lives at address 0. -/
def hW : Heap := ⟨1, [(0, [("name", .str "Milk")])]⟩

/-- The JSON value of the caller's `data` at enqueue time. -/
def tW : PVal := .obj [("name", .str "Milk")]

/-- The heap after the snapshot clone of `hW`'s object 0 (clone at address 1). -/
def h2W : Heap := ⟨2, [(0, [("name", .str "Milk")]), (1, [("name", .str "Milk")])]⟩

/-!
Supporting lemmas about the sync loop. -/

/-- The gateway-call trace of a loop run is one `saveDocument` call per
snapshot intent, in snapshot order, whatever the gateway answers. -/
theorem runItems_trace (gw : Gateway) :
    ∀ (items : List OutboxItem) (db : DB),
      (runItems gw db items).2 = items.map itemCall
  | [], _ => rfl
  | item :: rest, db => by
      simp [runItems, runItems_trace gw rest]

/-- `_linkServerId` only touches the `data` table. -/
theorem linkServerId_outbox (c : String) (q : Payload) (rid : String) (db : DB) :
    (linkServerId c q rid db).outbox = db.outbox := by
  unfold linkServerId
  cases findLinkTarget c q db <;> rfl

/-- `removeOutbox` only touches the `outbox` table. -/
theorem removeOutbox_data (k : Nat) (db : DB) : (removeOutbox k db).data = db.data := rfl

/-- Outbox effect of one loop iteration: the intent's row is deleted exactly
when `itemOk` holds, and nothing else changes. -/
theorem processItem_outbox (gw : Gateway) (db : DB) (item : OutboxItem) :
    (processItem gw db item).outbox =
      if itemOk gw item then db.outbox.filter (fun o => !(o.id == item.id))
      else db.outbox := by
  rcases hgw : gw item.collection (sentPayload item) with e | r
  · simp [processItem, itemOk, hgw]
  · rcases r with _ | rid
    · simp [processItem, itemOk, hgw, removeOutbox]
    · rcases hp : item.payload with _ | p
      · cases hact : (item.action == "POST") <;>
          simp [processItem, itemOk, hgw, hp, hact, removeOutbox]
      · cases hact : (item.action == "POST") <;>
          simp [processItem, itemOk, hgw, hp, hact, removeOutbox, linkServerId_outbox]

/-- Outbox effect of a whole loop run over a snapshot: exactly the
successfully dispatched snapshot intents are deleted. -/
theorem runItems_outbox (gw : Gateway) :
    ∀ (items : List OutboxItem) (db : DB),
      (runItems gw db items).1.outbox =
        db.outbox.filter (fun o => !(items.any (fun i => itemOk gw i && o.id == i.id)))
  | [], db => by simp [runItems]
  | item :: rest, db => by
      have ih := runItems_outbox gw rest (processItem gw db item)
      simp only [runItems]
      rw [ih, processItem_outbox]
      cases hok : itemOk gw item
      · simp [List.any_cons, hok]
      · simp [List.any_cons, List.filter_filter, Bool.not_or, hok, Bool.and_comm]

/-- An id-sorted outbox is its own `orderBy('id')` snapshot. -/
theorem sortById_of_sorted {l : List OutboxItem}
    (h : List.Pairwise (fun a b => a.id < b.id) l) : sortById l = l :=
  List.Sorted.insertionSort_eq (h.imp (fun hab => Nat.le_of_lt hab))

/-- Under strictly increasing ids, an id determines the row. -/
theorem eq_of_mem_of_id_eq {l : List OutboxItem}
    (h : List.Pairwise (fun a b => a.id < b.id) l) :
    ∀ {x y : OutboxItem}, x ∈ l → y ∈ l → x.id = y.id → x = y := by
  induction l with
  | nil => intro x y hx _ _; cases hx
  | cons a rest ih =>
    intro x y hx hy hid
    have hpc := List.pairwise_cons.mp h
    rcases List.mem_cons.mp hx with rfl | hx2 <;> rcases List.mem_cons.mp hy with rfl | hy2
    · rfl
    · exact absurd (hid ▸ hpc.1 y hy2) (lt_irrefl _)
    · exact absurd (hid ▸ hpc.1 x hx2) (lt_irrefl _)
    · exact ih hpc.2 hx2 hy2 hid

/-!
The Dexie `++id` invariant: every engine operation preserves `OutboxWF`,
so the id-sortedness hypotheses of the sync theorems hold in every reachable
database state. -/

/-- `_linkServerId` only touches the `data` table (counter part). -/
theorem linkServerId_outboxNext (c : String) (q : Payload) (rid : String) (db : DB) :
    (linkServerId c q rid db).outboxNext = db.outboxNext := by
  unfold linkServerId
  cases findLinkTarget c q db <;> rfl

/-- One loop iteration never touches the outbox auto-increment counter. -/
theorem processItem_outboxNext (gw : Gateway) (db : DB) (item : OutboxItem) :
    (processItem gw db item).outboxNext = db.outboxNext := by
  rcases hgw : gw item.collection (sentPayload item) with e | r
  · simp [processItem, hgw]
  · rcases r with _ | rid
    · simp [processItem, hgw, removeOutbox]
    · rcases hp : item.payload with _ | p2
      · cases hact : (item.action == "POST") <;>
          simp [processItem, hgw, hp, hact, removeOutbox]
      · cases hact : (item.action == "POST") <;>
          simp [processItem, hgw, hp, hact, removeOutbox, linkServerId_outboxNext]

/-- Appending one outbox row keyed by the current counter and bumping the
counter preserves the invariant. -/
theorem outboxWF_append {db db2 : DB} (h : OutboxWF db) {it : OutboxItem}
    (e1 : db2.outbox = db.outbox ++ [it]) (e2 : db2.outboxNext = db.outboxNext + 1)
    (hid : it.id = db.outboxNext) : OutboxWF db2 := by
  obtain ⟨hp, hb⟩ := h
  constructor
  · rw [e1]
    refine List.pairwise_append.mpr ⟨hp, by simp, ?_⟩
    intro a ha b hb2
    rcases List.mem_singleton.mp hb2 with rfl
    rw [hid]
    exact hb a ha
  · intro i hi
    rw [e1] at hi
    rw [e2]
    rcases List.mem_append.mp hi with h1 | h1
    · exact Nat.lt_succ_of_lt (hb i h1)
    · rcases List.mem_singleton.mp h1 with rfl
      rw [hid]
      exact Nat.lt_succ_self _

/-- The outbox effect of `saveSmartDocument`: one intent appended under the
current counter, counter bumped. -/
theorem saveSmartDocument_outbox (c : String) (p : Payload) (now : Nat) (db : DB) :
    ((saveSmartDocument c p now db).1).outbox =
        db.outbox ++ [⟨db.outboxNext, if hasServerId (jsonClone p) then "PUT" else "POST",
          c, some (jsonClone p), some now⟩] ∧
      ((saveSmartDocument c p now db).1).outboxNext = db.outboxNext + 1 := by
  cases hs : hasServerId (jsonClone p)
  · constructor <;> simp [saveSmartDocument, hs, addData, enqueue]
  · cases hf : db.data.find? (fun d => d.collection == c && d._id == (jsonClone p)._id) <;>
      constructor <;> simp [saveSmartDocument, hs, hf, addData, updateData, enqueue]

/-- `saveSmartDocument` preserves the outbox invariant. -/
theorem outboxWF_save (c : String) (p : Payload) (now : Nat) {db : DB}
    (h : OutboxWF db) : OutboxWF (saveSmartDocument c p now db).1 :=
  outboxWF_append h (saveSmartDocument_outbox c p now db).1
    (saveSmartDocument_outbox c p now db).2 rfl

/-- `clearSmartCollection` preserves the outbox invariant. -/
theorem outboxWF_clear (c : String) {db : DB} (h : OutboxWF db) :
    OutboxWF (clearSmartCollection c db) :=
  outboxWF_append h rfl rfl rfl

/-- One loop iteration preserves the outbox invariant. -/
theorem outboxWF_processItem (gw : Gateway) (item : OutboxItem) {db : DB}
    (h : OutboxWF db) : OutboxWF (processItem gw db item) := by
  obtain ⟨hp, hb⟩ := h
  constructor
  · rw [processItem_outbox]
    cases itemOk gw item
    · simpa using hp
    · simpa using List.Pairwise.sublist (List.filter_sublist _) hp
  · intro i hi
    rw [processItem_outboxNext]
    rw [processItem_outbox] at hi
    rcases instDecidableEqBool (itemOk gw item) true with hok | hok
    · rw [if_neg hok] at hi
      exact hb i hi
    · rw [if_pos hok] at hi
      exact hb i (List.mem_of_mem_filter hi)

/-- A whole loop run preserves the outbox invariant. -/
theorem outboxWF_runItems (gw : Gateway) :
    ∀ (items : List OutboxItem) {db : DB}, OutboxWF db →
      OutboxWF (runItems gw db items).1
  | [], _, h => h
  | it :: rest, _, h => outboxWF_runItems gw rest (outboxWF_processItem gw it h)

/-- `syncOutbox` preserves the outbox invariant. -/
theorem outboxWF_syncOutbox (online : Bool) (gw : Gateway) {db : DB}
    (h : OutboxWF db) : OutboxWF (syncOutbox online gw db).1 := by
  cases online
  · exact h
  · exact outboxWF_runItems gw _ h

/-- `bulkPut` of fresh documents never touches the outbox table. -/
theorem bulkPutFresh_outbox (c : String) :
    ∀ (fresh : List Payload) (db : DB),
      (bulkPutFresh c fresh db).outbox = db.outbox ∧
        (bulkPutFresh c fresh db).outboxNext = db.outboxNext
  | [], _ => ⟨rfl, rfl⟩
  | q :: rest, db => bulkPutFresh_outbox c rest (addData c q db)

/-- `refreshCache` never touches the outbox table. -/
theorem refreshCache_outbox (c : String) (fetched : Except Unit (List Payload))
    (db : DB) :
    (refreshCache c fetched db).outbox = db.outbox ∧
      (refreshCache c fetched db).outboxNext = db.outboxNext := by
  cases fetched with
  | error e => exact ⟨rfl, rfl⟩
  | ok fresh =>
    unfold refreshCache
    cases hguard : (db.outbox.filter (fun i => i.collection == c)).all
        (fun i => i.payload.isSome)
    · simp [hguard]
    · simpa [hguard] using bulkPutFresh_outbox c fresh _

/-- `refreshCache` preserves the outbox invariant. -/
theorem outboxWF_refreshCache (c : String) (fetched : Except Unit (List Payload))
    {db : DB} (h : OutboxWF db) : OutboxWF (refreshCache c fetched db) := by
  obtain ⟨e1, e2⟩ := refreshCache_outbox c fetched db
  unfold OutboxWF
  rw [e1, e2]
  exact h

/-- The empty database satisfies the outbox invariant. -/
theorem outboxWF_empty : OutboxWF dbEmpty :=
  ⟨List.Pairwise.nil, fun i hi => absurd hi (List.not_mem_nil i)⟩

/-!
Supporting lemmas about `refreshCache`. -/

/-- `bulkPut` of key-less fresh documents only inserts rows, so membership in
the `data` table is preserved. -/
theorem mem_bulkPutFresh (c : String) :
    ∀ (fresh : List Payload) (db : DB) (r : DataRec),
      r ∈ db.data → r ∈ (bulkPutFresh c fresh db).data
  | [], _, _, hr => hr
  | q :: rest, db, r, hr =>
      mem_bulkPutFresh c rest (addData c q db) r (List.mem_append_left _ hr)

/-- The pending-id set only contains truthy values
(`.filter(id => id)`). -/
theorem truthy_of_mem_pendingIds {c : String} {outbox : List OutboxItem} {v : JVal}
    (hv : v ∈ pendingIds c outbox) : truthy v = true :=
  (List.mem_filter.mp hv).2

/-!
Supporting lemmas about the heap model. -/

/-- Looking up an address below a bound ignores appended entries at or above
that bound. -/
theorem find_addr_append (objs ext : List (Nat × List (String × HVal))) {a bound : Nat}
    (hext : ∀ e ∈ ext, bound ≤ e.1) (ha : a < bound) :
    (objs ++ ext).find? (fun e => e.1 == a) = objs.find? (fun e => e.1 == a) := by
  induction objs with
  | nil =>
    simp only [List.nil_append, List.find?_nil]
    refine List.find?_eq_none.mpr ?_
    intro e he
    have hbe := hext e he
    simp only [beq_iff_eq]
    omega
  | cons o os ih =>
    cases hpred : (o.1 == a) <;> simp [List.find?_cons, hpred, ih]

/-- Extending a heap with entries at or above a bound does not change lookups
below the bound. -/
theorem lookup_ext_lt {h h' : Heap} {ext : List (Nat × List (String × HVal))}
    {bound a : Nat} (heq : h'.objs = h.objs ++ ext)
    (hbd : ∀ e ∈ ext, bound ≤ e.1) (halt : a < bound) :
    h'.lookup a = h.lookup a := by
  unfold Heap.lookup
  rw [heq, find_addr_append _ _ hbd halt]

/-- In a heap whose entries all lie below `key`, an entry appended at `key`
is found by lookup. -/
theorem lookup_append_self {objs : List (Nat × List (String × HVal))} {key : Nat}
    {x : List (String × HVal)} {n : Nat} (hk : ∀ e ∈ objs, e.1 < key) :
    Heap.lookup ⟨n, objs ++ [(key, x)]⟩ key = some x := by
  unfold Heap.lookup
  induction objs with
  | nil => simp
  | cons o os ih =>
    have ho := hk o (List.mem_cons_self o os)
    have hpred : (o.1 == key) = false := by simp only [beq_eq_false_iff_ne]; omega
    simp only [List.cons_append, List.find?_cons, hpred]
    exact ih (fun e he => hk e (List.mem_cons_of_mem o he))

/-- Updating the entry of one address leaves `find?` for another address
unchanged. -/
theorem find_map_setField {a a2 : Nat} (hne : a ≠ a2) (k : String) (v : HVal) :
    ∀ (os : List (Nat × List (String × HVal))),
      List.find? (fun e => e.1 == a)
          (os.map (fun e => if e.1 == a2 then (e.1, setFieldList e.2 k v) else e)) =
        List.find? (fun e => e.1 == a) os := by
  intro os
  induction os with
  | nil => rfl
  | cons o os ih =>
    simp only [List.map_cons, List.find?_cons]
    by_cases h2 : o.1 = a2
    · have hea : (o.1 == a) = false := beq_eq_false_iff_ne.mpr (by omega)
      rw [if_pos (show (o.1 == a2) = true by simpa using h2)]
      simp only [hea]
      exact ih
    · rw [if_neg (show ¬ (o.1 == a2) = true by simpa using h2)]
      cases hea : (o.1 == a)
      · simp only [hea]; exact ih
      · simp only [hea]

/-- A field assignment to one object does not change lookups of other
addresses. -/
theorem setField_lookup_ne (h : Heap) (a2 : Nat) (k : String) (v : HVal) {a : Nat}
    (hne : a ≠ a2) : (setField h a2 k v).lookup a = h.lookup a := by
  obtain ⟨n, objs⟩ := h
  unfold setField Heap.lookup
  simp only
  rw [find_map_setField hne]

/-- Heaps extended only by in-range fresh addresses stay well-formed. -/
theorem wf_ext {h h' : Heap} (hwf : wfHeap h = true) (hle : h.next ≤ h'.next)
    {ext : List (Nat × List (String × HVal))} (heq : h'.objs = h.objs ++ ext)
    (hbd : ∀ e ∈ ext, e.1 < h'.next) : wfHeap h' = true := by
  unfold wfHeap at *
  rw [heq]
  refine List.all_eq_true.mpr ?_
  intro e he
  rcases List.mem_append.mp he with hold | hext
  · have := List.all_eq_true.mp hwf e hold
    simp only [decide_eq_true_eq] at *
    omega
  · simpa using hbd e hext

/-- Reading fields through a reader that only produces `fits`-bounded trees
produces a `fits`-bounded field list. -/
theorem readFieldsWith_all_fits {f : HVal → Option PVal} {n : Nat}
    (hf : ∀ v pv, f v = some pv → fits n pv = true) :
    ∀ {flds : List (String × HVal)} {fs : List (String × PVal)},
      readFieldsWith f flds = some fs → fs.all (fun kv => fits n kv.2) = true := by
  intro flds
  induction flds with
  | nil =>
    intro fs hfs
    simp only [readFieldsWith, Option.some.injEq] at hfs
    simp [← hfs]
  | cons kv rest ih =>
    intro fs hfs
    obtain ⟨k, v⟩ := kv
    simp only [readFieldsWith] at hfs
    cases hfv : f v with
    | none => rw [hfv] at hfs; exact absurd hfs (by simp)
    | some pv =>
      cases hrest : readFieldsWith f rest with
      | none => rw [hfv, hrest] at hfs; exact absurd hfs (by simp)
      | some prest =>
        rw [hfv, hrest] at hfs
        simp only [Option.some.injEq] at hfs
        subst hfs
        simp only [List.all_cons, Bool.and_eq_true]
        exact ⟨hf v pv hfv, ih hrest⟩

/-- `JSON.stringify` with a given fuel only produces trees the same fuel can
traverse again. -/
theorem fits_of_readVal :
    ∀ (fuel : Nat) (h : Heap) (v : HVal) (t : PVal),
      readVal fuel h v = some t → fits fuel t = true := by
  intro fuel
  induction fuel with
  | zero => intro h v t ht; simp [readVal] at ht
  | succ n ih =>
    intro h v t ht
    cases v with
    | str s => simp only [readVal, Option.some.injEq] at ht; subst ht; rfl
    | num m => simp only [readVal, Option.some.injEq] at ht; subst ht; rfl
    | bool b => simp only [readVal, Option.some.injEq] at ht; subst ht; rfl
    | null => simp only [readVal, Option.some.injEq] at ht; subst ht; rfl
    | ref a =>
      cases hl : h.lookup a with
      | none => simp [readVal, hl] at ht
      | some flds =>
        simp only [readVal, hl] at ht
        cases hfs : readFieldsWith (readVal n h) flds with
        | none => rw [hfs] at ht; exact absurd ht (by simp)
        | some fs =>
          rw [hfs] at ht
          obtain rfl : PVal.obj fs = t := Option.some.inj (by simpa using ht)
          simpa [fits] using
            readFieldsWith_all_fits (fun v2 pv hpv => ih h v2 pv hpv) hfs

/-- `allocFieldsWith (allocVal fuel)` satisfies its specification whenever
`allocVal fuel` satisfies its own. -/
theorem allocFields_spec (fuel : Nat)
    (hval : ∀ (t : PVal) (h : Heap), wfHeap h = true → fits fuel t = true →
      AllocValSpec fuel t h) :
    ∀ (fs : List (String × PVal)) (h : Heap), wfHeap h = true →
      fs.all (fun kv => fits fuel kv.2) = true → AllocFieldsSpec fuel fs h := by
  intro fs
  induction fs with
  | nil =>
    intro h hwf _
    exact ⟨Nat.le_refl _,
      ⟨[], by simp [allocFieldsWith], fun e he => absurd he (List.not_mem_nil e)⟩,
      fun h2 F _ _ => rfl⟩
  | cons kv rest ih =>
    intro h hwf hall
    obtain ⟨k, v⟩ := kv
    have hfv : fits fuel v = true := by
      simpa using List.all_eq_true.mp hall (k, v) (List.mem_cons_self _ _)
    have hfrest : rest.all (fun kv => fits fuel kv.2) = true :=
      List.all_eq_true.mpr (fun e he => List.all_eq_true.mp hall e (List.mem_cons_of_mem _ he))
    obtain ⟨hv1, ⟨extv, hextv_eq, hextv_bd⟩, hv3⟩ := hval v h hwf hfv
    have hwfa : wfHeap (allocVal fuel h v).1 = true :=
      wf_ext hwf hv1 hextv_eq (fun e he => (hextv_bd e he).2)
    obtain ⟨hr1, ⟨extr, hextr_eq, hextr_bd⟩, hr3⟩ := ih (allocVal fuel h v).1 hwfa hfrest
    refine ⟨?_, ?_, ?_⟩
    · exact le_trans hv1 hr1
    · refine ⟨extv ++ extr, ?_, ?_⟩
      · show (allocFieldsWith (allocVal fuel) (allocVal fuel h v).1 rest).1.objs =
          h.objs ++ (extv ++ extr)
        rw [hextr_eq, hextv_eq, List.append_assoc]
      · intro e he
        rcases List.mem_append.mp he with h1 | h1
        · exact ⟨(hextv_bd e h1).1, lt_of_lt_of_le (hextv_bd e h1).2 hr1⟩
        · exact ⟨le_trans hv1 (hextr_bd e h1).1, (hextr_bd e h1).2⟩
    · intro h2 F hag hfitsF
      have hfvF : fits F v = true := by
        simpa using List.all_eq_true.mp hfitsF (k, v) (List.mem_cons_self _ _)
      have hfrestF : rest.all (fun kv => fits F kv.2) = true :=
        List.all_eq_true.mpr
          (fun e he => List.all_eq_true.mp hfitsF e (List.mem_cons_of_mem _ he))
      have hhead : readVal F h2 (allocVal fuel h v).2 = some v := by
        apply hv3 h2 F ?_ hfvF
        intro a ha1 ha2
        have e1 : h2.lookup a =
            (allocFieldsWith (allocVal fuel) (allocVal fuel h v).1 rest).1.lookup a :=
          hag a ha1 (lt_of_lt_of_le ha2 hr1)
        rw [e1]
        exact lookup_ext_lt hextr_eq (fun e he => (hextr_bd e he).1) ha2
      have hrest2 : readFieldsWith (readVal F h2)
          (allocFieldsWith (allocVal fuel) (allocVal fuel h v).1 rest).2 = some rest := by
        apply hr3 h2 F ?_ hfrestF
        intro a ha1 ha2
        exact hag a (le_trans hv1 ha1) ha2
      show readFieldsWith (readVal F h2)
          ((k, (allocVal fuel h v).2) ::
            (allocFieldsWith (allocVal fuel) (allocVal fuel h v).1 rest).2) =
        some ((k, v) :: rest)
      simp [readFieldsWith, hhead, hrest2]

/-- `allocVal` satisfies its specification: `JSON.parse` extends the heap
only at fresh addresses and the result reads back as the parsed tree in any
heap agreeing on those addresses. -/
theorem allocVal_spec :
    ∀ (fuel : Nat) (t : PVal) (h : Heap), wfHeap h = true → fits fuel t = true →
      AllocValSpec fuel t h := by
  intro fuel
  induction fuel with
  | zero => intro t h _ hf; simp [fits] at hf
  | succ n ih =>
    intro t h hwf hf
    cases t with
    | str s =>
      refine ⟨Nat.le_refl _,
        ⟨[], by simp [allocVal], fun e he => absurd he (List.not_mem_nil e)⟩, ?_⟩
      intro h2 F _ hfits
      cases F with
      | zero => simp [fits] at hfits
      | succ m => rfl
    | num m0 =>
      refine ⟨Nat.le_refl _,
        ⟨[], by simp [allocVal], fun e he => absurd he (List.not_mem_nil e)⟩, ?_⟩
      intro h2 F _ hfits
      cases F with
      | zero => simp [fits] at hfits
      | succ m => rfl
    | bool b =>
      refine ⟨Nat.le_refl _,
        ⟨[], by simp [allocVal], fun e he => absurd he (List.not_mem_nil e)⟩, ?_⟩
      intro h2 F _ hfits
      cases F with
      | zero => simp [fits] at hfits
      | succ m => rfl
    | null =>
      refine ⟨Nat.le_refl _,
        ⟨[], by simp [allocVal], fun e he => absurd he (List.not_mem_nil e)⟩, ?_⟩
      intro h2 F _ hfits
      cases F with
      | zero => simp [fits] at hfits
      | succ m => rfl
    | obj fs =>
      have hfall : fs.all (fun kv => fits n kv.2) = true := by simpa [fits] using hf
      obtain ⟨hq1, ⟨ext1, hext1_eq, hext1_bd⟩, hq3⟩ := allocFields_spec n ih fs h hwf hfall
      have hwf1 : wfHeap (allocFieldsWith (allocVal n) h fs).1 = true :=
        wf_ext hwf hq1 hext1_eq (fun e he => (hext1_bd e he).2)
      refine ⟨?_, ?_, ?_⟩
      · show h.next ≤ (allocFieldsWith (allocVal n) h fs).1.next + 1
        exact le_trans hq1 (Nat.le_succ _)
      · refine ⟨ext1 ++ [((allocFieldsWith (allocVal n) h fs).1.next,
          (allocFieldsWith (allocVal n) h fs).2)], ?_, ?_⟩
        · show (allocFieldsWith (allocVal n) h fs).1.objs ++
              [((allocFieldsWith (allocVal n) h fs).1.next,
                (allocFieldsWith (allocVal n) h fs).2)] =
            h.objs ++ (ext1 ++ [((allocFieldsWith (allocVal n) h fs).1.next,
              (allocFieldsWith (allocVal n) h fs).2)])
          rw [hext1_eq, List.append_assoc]
        · intro e he
          rcases List.mem_append.mp he with h1 | h1
          · exact ⟨(hext1_bd e h1).1, Nat.lt_succ_of_lt (hext1_bd e h1).2⟩
          · rcases List.mem_singleton.mp h1 with rfl
            exact ⟨hq1, Nat.lt_succ_self _⟩
      · intro h2 F hag hfits
        cases F with
        | zero => simp [fits] at hfits
        | succ m =>
          have hfallm : fs.all (fun kv => fits m kv.2) = true := by simpa [fits] using hfits
          have hlook : h2.lookup (allocFieldsWith (allocVal n) h fs).1.next =
              some (allocFieldsWith (allocVal n) h fs).2 := by
            rw [hag (allocFieldsWith (allocVal n) h fs).1.next hq1 (Nat.lt_succ_self _)]
            exact lookup_append_self (fun e he => by
              simpa using List.all_eq_true.mp hwf1 e he)
          have hfieldsread : readFieldsWith (readVal m h2)
              (allocFieldsWith (allocVal n) h fs).2 = some fs := by
            apply hq3 h2 m ?_ hfallm
            intro a ha1 ha2
            rw [hag a ha1 (Nat.lt_succ_of_lt ha2)]
            exact lookup_ext_lt rfl
              (fun e he => by rcases List.mem_singleton.mp he with rfl; exact Nat.le_refl _)
              ha2
          show readVal (m + 1) h2 (.ref (allocFieldsWith (allocVal n) h fs).1.next) =
            some (.obj fs)
          simp [readVal, hlook, hfieldsread]

/-!
Claim theorems. -/

/-- Local effect of `saveSmartDocument` on a payload without server identity:
one fresh `data` row and one fresh `POST` intent are appended, nothing else
changes. -/
theorem saveSmartDocument_post (c : String) (p : Payload) (now : Nat) (db : DB)
    (h : hasServerId (jsonClone p) = false) :
    (saveSmartDocument c p now db).1 =
      ⟨db.dataNext + 1,
       db.data ++
         [⟨db.dataNext, c, (jsonClone p)._id, (jsonClone p).name, (jsonClone p).fields⟩],
       db.outboxNext + 1,
       db.outbox ++ [⟨db.outboxNext, "POST", c, some (jsonClone p), some now⟩]⟩ := by
  simp [saveSmartDocument, h, addData, enqueue]

/-- C1 counterexample.  The claim says a second `saveSmartDocument` on the
same still-unsynced record is treated as an update: no second local record,
no second create intent.  Saving `{name: "Milk"}` twice from an empty store
in fact yields two local records and two `POST` intents: the no-server-id
branch of `saveSmartDocument` unconditionally `add`s and enqueues. -/
theorem save_twice_not_single_pending :
    ((saveSmartDocument "lists" pMilk 1
        ((saveSmartDocument "lists" pMilk 0 dbEmpty).1)).1).data.length = 2 ∧
      (((saveSmartDocument "lists" pMilk 1
          ((saveSmartDocument "lists" pMilk 0 dbEmpty).1)).1).outbox.filter
        (fun i => i.action == "POST")).length = 2 := by
  constructor <;> rfl

/-- C1 (amended).  A second `saveSmartDocument` on a record still without
server identity is treated as another brand-new creation: it appends a second
local record and a second `POST` intent, so several outstanding create
intents can exist for the same logical record. -/
theorem save_twice_duplicates_pending_create (c : String) (p : Payload)
    (now1 now2 : Nat) (db : DB) (h : hasServerId (jsonClone p) = false) :
    ((saveSmartDocument c p now2 ((saveSmartDocument c p now1 db).1)).1).data =
        db.data ++
          [⟨db.dataNext, c, (jsonClone p)._id, (jsonClone p).name, (jsonClone p).fields⟩,
           ⟨db.dataNext + 1, c, (jsonClone p)._id, (jsonClone p).name, (jsonClone p).fields⟩] ∧
      ((saveSmartDocument c p now2 ((saveSmartDocument c p now1 db).1)).1).outbox =
        db.outbox ++
          [⟨db.outboxNext, "POST", c, some (jsonClone p), some now1⟩,
           ⟨db.outboxNext + 1, "POST", c, some (jsonClone p), some now2⟩] := by
  rw [saveSmartDocument_post c p now1 db h, saveSmartDocument_post c p now2 _ h]
  constructor <;> simp

/-- Witness for the amended C1 theorem at `{name: "Milk"}` on the empty
store. -/
theorem save_twice_duplicates_pending_create_witness :
    hasServerId (jsonClone pMilk) = false ∧
      (((saveSmartDocument "lists" pMilk 1
            ((saveSmartDocument "lists" pMilk 0 dbEmpty).1)).1).data =
          dbEmpty.data ++
            [⟨dbEmpty.dataNext, "lists", (jsonClone pMilk)._id, (jsonClone pMilk).name,
                (jsonClone pMilk).fields⟩,
             ⟨dbEmpty.dataNext + 1, "lists", (jsonClone pMilk)._id, (jsonClone pMilk).name,
                (jsonClone pMilk).fields⟩] ∧
        ((saveSmartDocument "lists" pMilk 1
            ((saveSmartDocument "lists" pMilk 0 dbEmpty).1)).1).outbox =
          dbEmpty.outbox ++
            [⟨dbEmpty.outboxNext, "POST", "lists", some (jsonClone pMilk), some 0⟩,
             ⟨dbEmpty.outboxNext + 1, "POST", "lists", some (jsonClone pMilk), some 1⟩]) :=
  ⟨by decide, save_twice_duplicates_pending_create "lists" pMilk 0 1 dbEmpty (by decide)⟩

/-- C9.  `saveSmartDocument` treats a record whose `_id` is absent, not a
string, or a string of length at most 5 (`hasServerId = false` on the
snapshot) as having no server identity: it unconditionally inserts a
brand-new local record (leaving every existing row, e.g. one with the same
`_id = "12345"`, untouched as a prefix) and enqueues a `POST` intent. -/
theorem saveSmartDocument_short_id_creates (c : String) (p : Payload) (now : Nat)
    (db : DB) (h : hasServerId (jsonClone p) = false) :
    ((saveSmartDocument c p now db).1).data =
        db.data ++
          [⟨db.dataNext, c, (jsonClone p)._id, (jsonClone p).name, (jsonClone p).fields⟩] ∧
      ((saveSmartDocument c p now db).1).outbox =
        db.outbox ++ [⟨db.outboxNext, "POST", c, some (jsonClone p), some now⟩] := by
  rw [saveSmartDocument_post c p now db h]
  exact ⟨rfl, rfl⟩

/-- Witness for C9 at `_id = "12345"` (length 5) against a store already
holding a record with that `_id`: the existing row is not updated but
duplicated by the new pending-create row. -/
theorem saveSmartDocument_short_id_creates_witness :
    hasServerId (jsonClone p12345) = false ∧
      (((saveSmartDocument "lists" p12345 5 db12345).1).data =
          db12345.data ++
            [⟨db12345.dataNext, "lists", (jsonClone p12345)._id, (jsonClone p12345).name,
                (jsonClone p12345).fields⟩] ∧
        ((saveSmartDocument "lists" p12345 5 db12345).1).outbox =
          db12345.outbox ++
            [⟨db12345.outboxNext, "POST", "lists", some (jsonClone p12345), some 5⟩]) :=
  ⟨by decide, saveSmartDocument_short_id_creates "lists" p12345 5 db12345 (by decide)⟩

/-- C2.  `refreshCache` never deletes a record protected by an outstanding
outbox intent: a row whose truthy `_id` is in the pending-id set, or a row
with falsy/absent `_id` whose `name` is in the pending-create-name set,
is still present after the refresh, whatever the fetched snapshot contains
(in particular when it is absent from that snapshot).  When some intent of
the collection lacks a payload the whole refresh aborts as a no-op, which
also preserves the row. -/
theorem refreshCache_preserves_pending_records (c : String) (fresh : List Payload)
    (db : DB) (r : DataRec) (hmem : r ∈ db.data)
    (hprot : (∃ jv, r._id = some jv ∧ jv ∈ pendingIds c db.outbox) ∨
      (idFalsy r._id = true ∧ r.name ∈ pendingNewNames c db.outbox)) :
    r ∈ (refreshCache c (Except.ok fresh) db).data := by
  unfold refreshCache
  cases hguard : (db.outbox.filter (fun i => i.collection == c)).all
      (fun i => i.payload.isSome)
  · simpa [hguard] using hmem
  · simp only [hguard, if_true]
    apply mem_bulkPutFresh
    refine List.mem_filter.mpr ⟨hmem, ?_⟩
    unfold keepRec
    by_cases hc : (r.collection != c) = true
    · simp [hc]
    · simp only [hc, if_false]
      rcases hprot with ⟨jv, hjv, hmemid⟩ | ⟨hfalsy, hname⟩
      · have htr : truthy jv = true := truthy_of_mem_pendingIds hmemid
        rw [hjv]
        simp only [htr, if_true]
        exact List.elem_iff.mpr hmemid
      · cases hid : r._id with
        | none => simpa using List.elem_iff.mpr hname
        | some v =>
          have hvf : truthy v = false := by
            rw [hid] at hfalsy
            simpa [idFalsy] using hfalsy
          simp only [hvf]
          simpa using List.elem_iff.mpr hname

/-- Witness for C2: the pending `Milk` record (no `_id`, name in the
pending-create-name set) survives a refresh whose fetched snapshot is empty. -/
theorem refreshCache_preserves_pending_records_witness :
    (recMilk ∈ dbMilk.data ∧ idFalsy recMilk._id = true ∧
        recMilk.name ∈ pendingNewNames "lists" dbMilk.outbox) ∧
      recMilk ∈ (refreshCache "lists" (Except.ok []) dbMilk).data :=
  ⟨⟨by decide, by decide, by decide⟩,
    refreshCache_preserves_pending_records "lists" [] dbMilk recMilk (by decide)
      (Or.inr ⟨by decide, by decide⟩)⟩

/-- C3.  When `syncOutbox` dispatches a `POST` intent and the gateway
response carries an id, the first record of the collection without an `_id`
and with a matching trimmed name receives exactly that id (all its other
fields and every other record unchanged, as the row-wise update shows); when
no record matches, the `data` table is unchanged. -/
theorem syncOutbox_create_links_serverId (gw : Gateway) (db : DB)
    (item : OutboxItem) (p : Payload) (rid : String)
    (hact : item.action = "POST") (hpay : item.payload = some p)
    (hgw : gw item.collection (sentPayload item) = Except.ok (some rid)) :
    (processItem gw db item).data =
      (match findLinkTarget item.collection p db with
        | none => db.data
        | some m =>
            db.data.map (fun d =>
              if d.id == m.id then { d with _id := some (.str rid) } else d)) := by
  have hconv : findLinkTarget item.collection (convertBlobs p) db =
      findLinkTarget item.collection p db := rfl
  have hpi : processItem gw db item =
      removeOutbox item.id (linkServerId item.collection (convertBlobs p) rid db) := by
    simp [processItem, hgw, hact, hpay]
  rw [hpi, removeOutbox_data]
  unfold linkServerId
  rw [hconv]
  cases findLinkTarget item.collection p db
  · rfl
  · rfl

/-- Witness for C3: dispatching the `{name: "Eggs"}` create against a
gateway returning `abc123` links that id to the pending `Eggs` row. -/
theorem syncOutbox_create_links_serverId_witness :
    (itemEggs.action = "POST" ∧ itemEggs.payload = some pEggs ∧
        gwAbc itemEggs.collection (sentPayload itemEggs) = Except.ok (some "abc123")) ∧
      (processItem gwAbc dbEggs itemEggs).data =
        (match findLinkTarget itemEggs.collection pEggs dbEggs with
          | none => dbEggs.data
          | some m =>
              dbEggs.data.map (fun d =>
                if d.id == m.id then { d with _id := some (.str "abc123") } else d)) :=
  ⟨⟨rfl, rfl, rfl⟩,
    syncOutbox_create_links_serverId gwAbc dbEggs itemEggs pEggs "abc123" rfl rfl rfl⟩

/-- The V6 revision's dispatch does route a `CLEAR` intent to
`gateway.clearCollection` (context for the V7 regression below). -/
theorem itemCallsV6_clear (c : String) (ts : Option Nat) (n : Nat) :
    itemCallsV6 ⟨n, "CLEAR", c, none, ts⟩ = [GwCall.clearCollection c] := rfl

/-- C4 (code bug).  V7 `syncOutbox` routes every intent — `CLEAR` intents
enqueued by its own `clearSmartCollection` included — through
`gateway.saveDocument`; no `deleteDocument` or `clearCollection` call ever
occurs.  The first conjunct evaluates the code at the failing input: the
`CLEAR` intent produced by `clearSmartCollection` is dispatched as
`saveDocument("lists", undefined)`.  The second shows every dispatched call
of any run is a `saveDocument` call. -/
theorem syncOutbox_dispatches_only_saveDocument :
    (∀ gw : Gateway,
        (syncOutbox true gw (clearSmartCollection "lists" dbEmpty)).2 =
          [GwCall.saveDocument "lists" none]) ∧
      (∀ (gw : Gateway) (db : DB), ((syncOutbox true gw db).2.all isSaveCall) = true) := by
  constructor
  · intro gw
    show (runItems gw _ (sortById _)).2 = _
    rw [runItems_trace]
    rfl
  · intro gw db
    show ((runItems gw db (sortById db.outbox)).2.all isSaveCall) = true
    rw [runItems_trace]
    simp [List.all_eq_true, itemCall, isSaveCall]

/-- C6.  A `syncOutbox` run over an outbox with (Dexie-guaranteed) strictly
increasing ids dispatches every intent in order and afterwards retains
exactly the intents whose dispatch failed: a failing intent is kept and does
not stop the loop, a succeeding intent is removed only after its gateway
call returned. -/
theorem syncOutbox_partial_failure_resilience (gw : Gateway) (db : DB)
    (hs : List.Pairwise (fun a b => a.id < b.id) db.outbox) :
    (syncOutbox true gw db).1.outbox = db.outbox.filter (fun i => !(itemOk gw i)) ∧
      (syncOutbox true gw db).2 = db.outbox.map itemCall := by
  have hsort : sortById db.outbox = db.outbox := sortById_of_sorted hs
  constructor
  · show (runItems gw db (sortById db.outbox)).1.outbox = _
    rw [hsort, runItems_outbox]
    refine List.filter_congr ?_
    intro o ho
    congr 1
    cases hok : itemOk gw o
    · refine List.any_eq_false.mpr ?_
      intro i hi
      by_cases hid : o.id = i.id
      · have : i = o := eq_of_mem_of_id_eq hs hi ho (hid.symm)
        subst this
        simp [hok]
      · simp [beq_eq_false_iff_ne.mpr hid]
    · exact List.any_eq_true.mpr ⟨o, ho, by simp [hok]⟩
  · show (runItems gw db (sortById db.outbox)).2 = _
    rw [hsort, runItems_trace]

/-- Witness for C6: three queued intents where exactly the second fails —
afterwards the outbox retains exactly the failed intent (`itemB`), the other
two having been dispatched and removed, and all three were dispatched in
order. -/
theorem syncOutbox_partial_failure_resilience_witness :
    List.Pairwise (fun a b => a.id < b.id) dbThree.outbox ∧
      ((syncOutbox true gwFailB dbThree).1.outbox =
          dbThree.outbox.filter (fun i => !(itemOk gwFailB i)) ∧
        (syncOutbox true gwFailB dbThree).2 = dbThree.outbox.map itemCall) ∧
      dbThree.outbox.filter (fun i => !(itemOk gwFailB i)) = [itemB] :=
  ⟨by decide, syncOutbox_partial_failure_resilience gwFailB dbThree (by decide),
    by decide⟩

/-- C7.  Within one `syncOutbox` run the dispatch trace is exactly the
id-ordered (= enqueue-ordered, ids being assigned by the `++id`
auto-increment) outbox, call by call: for any two intents A enqueued before
B, A's gateway call precedes B's. -/
theorem syncOutbox_dispatch_in_enqueue_order (gw : Gateway) (db : DB)
    (hs : List.Pairwise (fun a b => a.id < b.id) db.outbox) :
    (syncOutbox true gw db).2 = db.outbox.map itemCall := by
  show (runItems gw db (sortById db.outbox)).2 = _
  rw [sortById_of_sorted hs, runItems_trace]

/-- Witness for C7 on the three-intent queue. -/
theorem syncOutbox_dispatch_in_enqueue_order_witness :
    List.Pairwise (fun a b => a.id < b.id) dbThree.outbox ∧
      (syncOutbox true gwOkNone dbThree).2 = dbThree.outbox.map itemCall :=
  ⟨by decide, syncOutbox_dispatch_in_enqueue_order gwOkNone dbThree (by decide)⟩

/-- C8 counterexample.  The claim says a second `syncOutbox` started while
one is in flight observes a run-in-progress guard and no intent is dispatched
twice.  There is no guard: under the schedule where both invocations pass
their initial `toArray` read before either processes (both reads are
`await`s, so this interleaving is schedulable), both dispatch the single
queued intent — its `saveDocument` call appears twice in the trace. -/
theorem interleaved_drains_double_dispatch :
    (runSched gwOkNone ⟨dbMilk, [], .notStarted, .notStarted⟩
        [true, false, true, false]).trace =
      [GwCall.saveDocument "lists" (some pMilk),
       GwCall.saveDocument "lists" (some pMilk)] := rfl

/-- C8 (amended).  `syncOutbox` holds no run-in-progress guard: a second
invocation interleaved with an in-flight one re-reads the outbox into its own
snapshot and re-dispatches the same intent (its later `outbox.delete` being a
no-op), so an intent can reach the gateway twice. -/
theorem interleaved_drain_redispatch (gw : Gateway) (item : OutboxItem) (db : DB)
    (h : db.outbox = [item]) :
    (runSched gw ⟨db, [], .notStarted, .notStarted⟩ [true, false, true, false]).trace =
      [itemCall item, itemCall item] := by
  have hsort : sortById db.outbox = [item] := by rw [h]; rfl
  simp [runSched, stepSys, stepDrain, hsort]

/-- Witness for the amended C8 theorem: the pending `Milk` create is
dispatched twice by the interleaved drains. -/
theorem interleaved_drain_redispatch_witness :
    dbMilk.outbox = [itemMilk] ∧
      (runSched gwAbc ⟨dbMilk, [], .notStarted, .notStarted⟩
          [true, false, true, false]).trace = [itemCall itemMilk, itemCall itemMilk] :=
  ⟨rfl, interleaved_drain_redispatch gwAbc itemMilk dbMilk rfl⟩

/-- C10.  `clearSmartCollection` stores its `CLEAR` intent without a payload,
and while any payload-less intent of a collection is outstanding every
`refreshCache` of that collection is a complete no-op: computing
`i.payload._id` throws, the `catch` swallows the error before the delete and
the `bulkPut`, so no record is deleted and the fetched snapshot is not
written. -/
theorem refreshCache_noop_with_pending_clear (c : String)
    (fetched : Except Unit (List Payload)) (db : DB) :
    ((clearSmartCollection c db).outbox.any
        (fun i => i.collection == c && i.payload.isNone)) = true ∧
      (∀ db2 : DB,
        (db2.outbox.any (fun i => i.collection == c && i.payload.isNone)) = true →
          refreshCache c fetched db2 = db2) := by
  constructor
  · refine List.any_eq_true.mpr ⟨⟨db.outboxNext, "CLEAR", c, none, none⟩, ?_, ?_⟩
    · exact List.mem_append_right _ (List.mem_singleton.mpr rfl)
    · simp
  · intro db2 hany
    obtain ⟨i, hi, hprop⟩ := List.any_eq_true.mp hany
    have hcol : (i.collection == c) = true := (Bool.and_eq_true_iff.mp hprop).1
    have hnone : i.payload = none := by
      have := (Bool.and_eq_true_iff.mp hprop).2
      simpa [Option.isNone_iff_eq_none] using this
    unfold refreshCache
    cases fetched with
    | error e => rfl
    | ok fresh =>
      have hguard : ((db2.outbox.filter (fun i => i.collection == c)).all
          (fun i => i.payload.isSome)) = false := by
        refine List.all_eq_false.mpr ⟨i, List.mem_filter.mpr ⟨hi, hcol⟩, ?_⟩
        simp [hnone]
      simp [hguard]

/-- Witness for C10: after `clearSmartCollection "lists"` a refresh of
`lists` (fetch succeeding with an empty snapshot) changes nothing. -/
theorem refreshCache_noop_with_pending_clear_witness :
    ((clearSmartCollection "lists" dbEmpty).outbox.any
        (fun i => i.collection == "lists" && i.payload.isNone)) = true ∧
      refreshCache "lists" (Except.ok []) (clearSmartCollection "lists" dbEmpty) =
        clearSmartCollection "lists" dbEmpty :=
  ⟨(refreshCache_noop_with_pending_clear "lists" (Except.ok []) dbEmpty).1,
    (refreshCache_noop_with_pending_clear "lists" (Except.ok []) dbEmpty).2
      (clearSmartCollection "lists" dbEmpty) (by decide)⟩

/-- C5.  The payload `saveSmartDocument` enqueues is the
`JSON.parse(JSON.stringify(data))` snapshot: it reads back as exactly the
JSON value `t` the caller's object graph had at enqueue time, and any later
field assignment to any pre-existing object (every object of the caller's
original `data` graph lives at an address below `h.next`) leaves that value
unchanged. -/
theorem outbox_snapshot_immutable (fuel F : Nat) (h h2 : Heap) (root r : HVal)
    (t : PVal) (hwf : wfHeap h = true)
    (hrt : jsonRoundTrip fuel h root = some (h2, r))
    (hread : readVal fuel h root = some t) (hfits : fits F t = true) :
    readVal F h2 r = some t ∧
      ∀ (a : Nat) (k : String) (v : HVal), a < h.next →
        readVal F (setField h2 a k v) r = some t := by
  have hpair : (h2, r) = allocVal fuel h t := by
    unfold jsonRoundTrip at hrt
    rw [hread] at hrt
    exact (Option.some.inj hrt).symm
  obtain ⟨hle, ⟨ext, hexteq, hextbd⟩, hback⟩ :=
    allocVal_spec fuel t h hwf (fits_of_readVal fuel h root t hread)
  have hh2 : h2 = (allocVal fuel h t).1 := congrArg Prod.fst hpair
  have hr2 : r = (allocVal fuel h t).2 := congrArg Prod.snd hpair
  subst hh2
  subst hr2
  constructor
  · exact hback (allocVal fuel h t).1 F (fun a _ _ => rfl) hfits
  · intro a k v halt
    apply hback (setField (allocVal fuel h t).1 a k v) F ?_ hfits
    intro b hb1 hb2
    exact setField_lookup_ne _ _ _ _ (by omega)

/-- Witness for C5: snapshotting the caller's `{name: "Milk"}` object (heap
address 0) allocates the clone at address 1, and overwriting the original's
`name` with `"Cheese"` afterwards leaves the snapshot's value intact. -/
theorem outbox_snapshot_immutable_witness :
    (wfHeap hW = true ∧ jsonRoundTrip 3 hW (.ref 0) = some (h2W, .ref 1) ∧
        readVal 3 hW (.ref 0) = some tW ∧ fits 3 tW = true) ∧
      readVal 3 h2W (.ref 1) = some tW ∧
      readVal 3 (setField h2W 0 "name" (.str "Cheese")) (.ref 1) = some tW :=
  ⟨⟨rfl, rfl, rfl, rfl⟩,
    (outbox_snapshot_immutable 3 3 hW h2W (.ref 0) (.ref 1) tW rfl rfl rfl rfl).1,
    (outbox_snapshot_immutable 3 3 hW h2W (.ref 0) (.ref 1) tW rfl rfl rfl rfl).2
      0 "name" (.str "Cheese") (by decide)⟩

end Superlist
